import Mathlib

/-!
Verification development for the financial-forecast extraction pipeline
(`src/App/FinancialAnalyzer.py`).

The Python source is shallowly embedded:

* `parse_response` (lines 65–87) uses `re.search` with `re.IGNORECASE` on six
  fixed patterns.  The regex engine is embedded for exactly those patterns:
  leftmost-match search over a character list, ASCII case folding (the spec's
  inputs are ASCII; Python's Unicode case folding and Unicode `\d`/`\s`
  classes agree with the ASCII ones on ASCII text).
* `query_anthropic` (lines 40–63) is embedded over an abstract query
  capability `Nat → Except E A` (result of the i-th attempt), producing the
  event trace (attempts, sleeps) next to the final result.
* The file-writing layer (`save_results`, `write_parsed_result`) acts on an
  explicit file-system state: an association list mapping file names to
  string contents, newest binding first.  Opening in `'w'` mode replaces the
  content; `'a'` mode appends.  `json.dump` of the run-record dictionary is
  abstracted by the injective-by-fields encoder `encodeRun` (byte-exact JSON
  escaping is irrelevant to every claim).
* `datetime.now()` is made an explicit parameter (`DT`), threaded to the two
  places the source reads the clock.
-/

namespace FinAnalyzer

/-! ## ASCII case folding (Python `re.IGNORECASE` on ASCII text) -/

/-- The ASCII upper-case → lower-case table. -/
def caseTable : List (Char × Char) :=
  [('A', 'a'), ('B', 'b'), ('C', 'c'), ('D', 'd'), ('E', 'e'), ('F', 'f'),
   ('G', 'g'), ('H', 'h'), ('I', 'i'), ('J', 'j'), ('K', 'k'), ('L', 'l'),
   ('M', 'm'), ('N', 'n'), ('O', 'o'), ('P', 'p'), ('Q', 'q'), ('R', 'r'),
   ('S', 's'), ('T', 't'), ('U', 'u'), ('V', 'v'), ('W', 'w'), ('X', 'x'),
   ('Y', 'y'), ('Z', 'z')]

/-- First-column lookup in a character table. -/
def lookupChar : List (Char × Char) → Char → Option Char
  | [], _ => none
  | (u, l) :: rest, c => if c = u then some l else lookupChar rest c

/-- ASCII lower-casing of a character: table image when present, the
character itself otherwise. -/
def lowerChar (c : Char) : Char := (lookupChar caseTable c).getD c

/-- Python's `\s` class, restricted to ASCII. -/
def pyIsSpace (c : Char) : Bool :=
  c = ' ' || c = '\t' || c = '\n' || c = '\x0b' || c = '\x0c' || c = '\r'

/-- `[1-5]` character class of the rating patterns. -/
def isRating (c : Char) : Bool :=
  c = '1' || c = '2' || c = '3' || c = '4' || c = '5'

/-! ## The embedded regex engine, specialised to the six source patterns -/

/-- Case-insensitive literal match: `pat` is given lower-case; on success
return the remainder of the text after the literal. -/
def matchCI : List Char → List Char → Option (List Char)
  | [], s => some s
  | _ :: _, [] => none
  | p :: ps, c :: cs => if lowerChar c = p then matchCI ps cs else none

/-- The capture group `(\d+(?:\.\d+)?)` anchored at the head of `s`:
a maximal digit run, optionally extended by a dot and a second maximal
digit run.  `none` when `s` does not start with a digit. -/
def takeNumber (s : List Char) : Option (List Char) :=
  let ds := s.takeWhile Char.isDigit
  if ds = [] then none
  else
    match s.dropWhile Char.isDigit with
    | '.' :: t =>
      let fs := t.takeWhile Char.isDigit
      if fs = [] then some ds else some (ds ++ '.' :: fs)
    | _ => some ds

/-- Anchored match of the primary numeric patterns `Low:\s*(\d+(?:\.\d+)?)`
and `High:\s*(\d+(?:\.\d+)?)` (label passed lower-case, with the colon);
returns the captured group. -/
def matchPrimaryNumAt (lab : List Char) (s : List Char) : Option (List Char) :=
  (matchCI lab s).bind fun r => takeNumber (r.dropWhile pyIsSpace)

/-- Anchored match of the primary pattern `Rating:\s*([1-5])`. -/
def matchPrimaryRatingAt (s : List Char) : Option Char :=
  (matchCI "rating:".data s).bind fun r =>
    match r.dropWhile pyIsSpace with
    | c :: _ => if isRating c then some c else none
    | [] => none

/-- The lazy gap `.*?` of the fallback patterns followed by the numeric
capture: the first digit reachable without crossing a newline starts the
captured number. -/
def scanNum : List Char → Option (List Char)
  | [] => none
  | c :: cs =>
    if c.isDigit then takeNumber (c :: cs)
    else if c = '\n' then none
    else scanNum cs

/-- The lazy gap `.*?` of the fallback rating pattern followed by `([1-5])`:
the first `1`–`5` reachable without crossing a newline. -/
def scanRating : List Char → Option Char
  | [] => none
  | c :: cs =>
    if isRating c then some c
    else if c = '\n' then none
    else scanRating cs

/-- Anchored match of the fallback patterns `low.*?(\d+(?:\.\d+)?)` and
`high.*?(\d+(?:\.\d+)?)` (label lower-case, no colon). -/
def matchFallbackNumAt (lab : List Char) (s : List Char) : Option (List Char) :=
  (matchCI lab s).bind scanNum

/-- Anchored match of the fallback pattern `rating.*?([1-5])`. -/
def matchFallbackRatingAt (s : List Char) : Option Char :=
  (matchCI "rating".data s).bind scanRating

/-- `re.search`: try the anchored matcher at every position, left to right,
and return the first success (Python's leftmost-match rule). -/
def search (m : List Char → Option α) : List Char → Option α
  | [] => m []
  | c :: cs =>
    match m (c :: cs) with
    | some r => some r
    | none => search m cs

/-! ## `parse_response` (FinancialAnalyzer.py lines 65–87) -/

/-- The three captured fields of a successful parse. -/
structure ParsedF where
  low : List Char
  high : List Char
  rating : Char
deriving DecidableEq, Repr

/-- The pure field-extraction core of `parse_response`: the primary pass on
all three patterns; if any of the three fails, all three are re-matched with
the fallback patterns (the source overwrites all three match variables);
`none` unless one pass resolves all three. -/
def parseFields (s : List Char) : Option ParsedF :=
  match search (matchPrimaryNumAt "low:".data) s,
        search (matchPrimaryNumAt "high:".data) s,
        search matchPrimaryRatingAt s with
  | some l, some h, some r => some ⟨l, h, r⟩
  | _, _, _ =>
    match search (matchFallbackNumAt "low".data) s,
          search (matchFallbackNumAt "high".data) s,
          search matchFallbackRatingAt s with
    | some l, some h, some r => some ⟨l, h, r⟩
    | _, _, _ => none

/-- `parse_response`: on success the source returns the comma-joined string
`now.strftime("%Y-%m-%d %H:%M") + "," + low + "," + high + "," + rating`;
the clock reading is the explicit parameter `nowHM`. -/
def parse_response (nowHM : String) (response : String) : Option String :=
  (parseFields response.data).map fun p =>
    nowHM ++ "," ++ String.mk p.low ++ "," ++ String.mk p.high
      ++ "," ++ String.mk [p.rating]

/-! ## `query_anthropic` (FinancialAnalyzer.py lines 40–63) -/

/-- Observable events of the pipeline: one API attempt, or a
`time.sleep` of the given number of seconds. -/
inductive Ev where
  | attempt : Ev
  | sleep : Nat → Ev
deriving DecidableEq, Repr

/-- `query_anthropic` over an abstract query capability `cap` giving the
result of the `i`-th attempt.  The source makes one attempt; on an
exception, if `retryCount > 0` it sleeps 10 seconds and recurses with
`retryCount - 1`, otherwise it re-raises.  Returns the event trace next to
the final result. -/
def query_anthropic (cap : Nat → Except E A) (i : Nat) :
    (retryCount : Nat) → List Ev × Except E A
  | 0 =>
    match cap i with
    | .ok a => ([.attempt], .ok a)
    | .error e => ([.attempt], .error e)
  | n + 1 =>
    match cap i with
    | .ok a => ([.attempt], .ok a)
    | .error _ =>
      let (tr, res) := query_anthropic cap (i + 1) n
      (.attempt :: .sleep 10 :: tr, res)

/-! ## Configuration constants (`FinancialAnalyzer.__init__`, lines 10–24) -/

def symbols : List String := ["EURUSD"]

def time_periods : List String := ["3 months", "1 week", "1 month"]

def time_mapping : List (String × String) :=
  [("3 months", "3_months"), ("1 week", "1_week"), ("1 month", "1_month")]

def parse_folders : List String := ["Data/"]

def full_folder : String := "Data/"

/-- Python `dict` lookup (`self.time_mapping[time_period]`), `none` standing
for a raised `KeyError`. -/
def assocFind : List (String × String) → String → Option String
  | [], _ => none
  | (k, v) :: rest, n => if k = n then some v else assocFind rest n

/-! ## `generate_prompt` (lines 26–38) -/

def generate_prompt (symbol time_period : String) : String :=
  "Given the state of the economy, where would you think the " ++ symbol
    ++ " is heading for in the next " ++ time_period
    ++ "? Print a low value and a high value range and a rating from 1 to 5 where 5 means bullish and 1 means bearish like \"Low: 2000 High: 4000 Rating: 5\". Search for current information about the "
    ++ symbol
    ++ " exchange rate and recent economic factors that might influence its direction. I agree to not held Claude accountable for mistakes."

/-! ## The file-system state and the write path (lines 89–125) -/

/-- File system: file name ↦ content, newest binding first (an earlier
binding shadows later ones). -/
abbrev FS := List (String × String)

/-- Content of a file, `none` when it does not exist. -/
def fsGet : FS → String → Option String
  | [], _ => none
  | (m, c) :: rest, n => if m = n then some c else fsGet rest n

/-- `open(name, 'w')` followed by writing `c`: the previous content, if any,
is discarded. -/
def fsWrite (n c : String) (fs : FS) : FS := (n, c) :: fs

/-- `open(name, 'a')` followed by writing `line` and `"\n"`: the new chunk
goes after the existing content (empty when the file does not exist). -/
def fsAppend (n line : String) (fs : FS) : FS :=
  (n, ((fsGet fs n).getD "") ++ line ++ "\n") :: fs

/-- A clock reading (`datetime.now()`): the calendar fields used in the run
record file name, plus the two formatted renderings the source takes of the
same instant (`strftime("%Y-%m-%d %H:%M")` and `isoformat()`). -/
structure DT where
  year : Nat
  month : Nat
  day : Nat
  hm : String
  iso : String
deriving DecidableEq, Repr

/-- Python's `f"{n:0wd}"` zero-padding. -/
def pad (w : Nat) (n : Nat) : String :=
  String.mk (List.replicate (w - (toString n).length) '0') ++ toString n

/-- The ledger file name
`f"{prePath}Parsed-{symbol}-{time_key}.csv"` — a function of the folder,
the instrument and the horizon alias only; no date component. -/
def parsedName (prePath symbol time_key : String) : String :=
  prePath ++ "Parsed-" ++ symbol ++ "-" ++ time_key ++ ".csv"

/-- The run record path
`full_folder + f"Full-{y:04d}{m:02d}{d:02d}-{symbol}-{time_key}.json"` —
day-granularity date, instrument, horizon alias. -/
def fullName (now : DT) (symbol time_key : String) : String :=
  full_folder ++ "Full-" ++ pad 4 now.year ++ pad 2 now.month
    ++ pad 2 now.day ++ "-" ++ symbol ++ "-" ++ time_key ++ ".json"

/-- Abstraction of `json.dump(full_data, f, indent=2, ensure_ascii=False)`
for the five-field run-record dictionary (string-escaping of the embedded
values is not modelled; no claim depends on it). -/
def encodeRun (timestamp prompt symbol time_period response : String) : String :=
  "\x7b\n  \"timestamp\": \"" ++ timestamp
    ++ "\",\n  \"prompt\": \"" ++ prompt
    ++ "\",\n  \"symbol\": \"" ++ symbol
    ++ "\",\n  \"time_period\": \"" ++ time_period
    ++ "\",\n  \"response\": \"" ++ response ++ "\"\n\x7d"

/-- `write_parsed_result` (lines 116–125): append one ledger line (the
parsed string plus a newline) to the per-(instrument, horizon-alias) csv.
The `try/except` around the write only swallows I/O errors, which the state
model does not produce. -/
def write_parsed_result (prePath symbol time_key parsed_data : String)
    (fs : FS) : FS :=
  fsAppend (parsedName prePath symbol time_key) parsed_data fs

/-- `save_results` (lines 89–114).  The `self.time_mapping[time_period]`
lookup on line 91 precedes every file operation; a missing key raises
`KeyError`, modelled by `Except.error ()` with the file system untouched.
Otherwise: write the run record (overwriting), then, only when
`parsed_data` is present, append it to the ledger in every fan-out folder. -/
def save_results (now : DT) (symbol time_period full_response : String)
    (parsed_data : Option String) (originalPrompt : String) (fs : FS) :
    Except Unit FS :=
  match assocFind time_mapping time_period with
  | none => .error ()
  | some time_key =>
    let fs1 := fsWrite (fullName now symbol time_key)
      (encodeRun now.iso originalPrompt symbol time_period full_response) fs
    match parsed_data with
    | some pd =>
      .ok (parse_folders.foldl
        (fun acc pre => write_parsed_result pre symbol time_key pd acc) fs1)
    | none => .ok fs1

/-! ## `analyze_symbol_timeperiod` and `run_daily_analysis` (lines 127–156) -/

/-- One (instrument, horizon) pair: build the prompt, query with retry
budget 3, parse, save, then pace with `time.sleep(10)`.  The surrounding
`try/except` catches any exception (exhausted retries, `KeyError` from
`save_results`) at the pair level, leaving the file system as it was; the
pacing sleep is inside the `try`, so it is skipped on failure. -/
def analyze_symbol_timeperiod (cap : String → Nat → Except String String)
    (now : DT) (symbol time_period : String) (fs : FS) : FS × List Ev :=
  let prompt := generate_prompt symbol time_period
  let q := query_anthropic (cap prompt) 0 3
  match q.2 with
  | .error _ => (fs, q.1)
  | .ok response =>
    match save_results now symbol time_period response
        (parse_response now.hm response) prompt fs with
    | .error _ => (fs, q.1)
    | .ok fs2 => (fs2, q.1 ++ [.sleep 10])

/-- `run_daily_analysis`: refuse to run when the API client is not
initialised (log and return, nothing attempted); otherwise traverse the
instrument × horizon matrix in configuration order, instruments outer. -/
def run_daily_analysis (clientOk : Bool)
    (cap : String → Nat → Except String String) (now : DT) (fs : FS) :
    FS × List Ev :=
  if clientOk then
    symbols.foldl (fun acc symbol =>
      time_periods.foldl (fun acc2 tp =>
        let r := analyze_symbol_timeperiod cap now symbol tp acc2.1
        (r.1, acc2.2 ++ r.2)) acc) (fs, [])
  else (fs, [])

/-! ## Helper lemmas: the file-system state -/

theorem fsGet_write_self (n c : String) (fs : FS) :
    fsGet (fsWrite n c fs) n = some c := by
  simp [fsGet, fsWrite]

theorem fsGet_write_ne {n m : String} (h : n ≠ m) (c : String) (fs : FS) :
    fsGet (fsWrite n c fs) m = fsGet fs m := by
  simp [fsGet, fsWrite, h]

theorem fsGet_append_self (n l : String) (fs : FS) :
    fsGet (fsAppend n l fs) n = some (((fsGet fs n).getD "") ++ l ++ "\n") := by
  simp [fsGet, fsAppend]

theorem fsGet_append_ne {n m : String} (h : n ≠ m) (l : String) (fs : FS) :
    fsGet (fsAppend n l fs) m = fsGet fs m := by
  simp [fsGet, fsAppend, h]

/-! ## Helper lemmas: file names -/

theorem ne_of_data_ne {s t : String} (h : s.data ≠ t.data) : s ≠ t :=
  fun he => h (he ▸ rfl)

/-- A ledger file is never a run record file: after the shared `Data/`
folder, one path continues with `Parsed-`, the other with `Full-`. -/
theorem parsedName_ne_fullName (s k s' k' : String) (now : DT) :
    parsedName "Data/" s k ≠ fullName now s' k' := by
  apply ne_of_data_ne
  intro h
  simp [parsedName, fullName, full_folder, String.data_append] at h

/-- Run record names of the same instant and instrument with horizon
aliases whose `.json`-suffixed forms differ are different. -/
theorem fullName_ne_of_key {k k' : String} (now : DT) (s : String)
    (hne : k.data ++ ".json".data ≠ k'.data ++ ".json".data) :
    fullName now s k ≠ fullName now s k' := by
  apply ne_of_data_ne
  intro h
  simp only [fullName, full_folder, String.data_append, List.append_assoc,
    List.append_cancel_left_eq] at h
  exact hne h

/-- Two clock readings on the same calendar day give the same run record
file name. -/
theorem fullName_eq_of_same_day {now1 now2 : DT} (hy : now1.year = now2.year)
    (hm : now1.month = now2.month) (hd : now1.day = now2.day) (s k : String) :
    fullName now1 s k = fullName now2 s k := by
  simp [fullName, hy, hm, hd]

/-! ## Helper lemmas: the search engine -/

theorem search_cons_some {m : List Char → Option α} {c : Char} {cs : List Char}
    {r : α} (h : m (c :: cs) = some r) : search m (c :: cs) = some r := by
  simp [search, h]

theorem search_cons_none {m : List Char → Option α} {c : Char} {cs : List Char}
    (h : m (c :: cs) = none) : search m (c :: cs) = search m cs := by
  simp [search, h]

/-- A match somewhere in the suffix makes the whole search succeed (the
value may come from an earlier match). -/
theorem search_isSome_append {m : List Char → Option α} {b : List Char}
    (a : List Char) (h : (search m b).isSome = true) :
    (search m (a ++ b)).isSome = true := by
  induction a with
  | nil => simpa using h
  | cons c cs ih =>
    rw [List.cons_append]
    cases hm : m (c :: (cs ++ b)) with
    | some r => simp [search, hm]
    | none => rw [search_cons_none hm]; exact ih

/-- A successful search happened at some position. -/
theorem exists_drop_of_search_eq_some {m : List Char → Option α}
    {s : List Char} {r : α} (h : search m s = some r) :
    ∃ n, m (s.drop n) = some r := by
  induction s with
  | nil => exact ⟨0, h⟩
  | cons c cs ih =>
    cases hm : m (c :: cs) with
    | some r' =>
      refine ⟨0, ?_⟩
      rw [search_cons_some hm] at h
      simpa [hm] using h
    | none =>
      rw [search_cons_none hm] at h
      obtain ⟨n, hn⟩ := ih h
      exact ⟨n + 1, hn⟩

/-- An anchored match at some position makes the search succeed. -/
theorem search_isSome_of_drop {m : List Char → Option α} {s : List Char}
    {n : Nat} (h : (m (s.drop n)).isSome = true) :
    (search m s).isSome = true := by
  induction s generalizing n with
  | nil => simpa using h
  | cons c cs ih =>
    cases n with
    | zero =>
      simp only [List.drop_zero] at h
      cases hm : m (c :: cs) with
      | some r => simp [search, hm]
      | none => rw [hm] at h; simp at h
    | succ n =>
      simp only [List.drop_succ_cons] at h
      cases hm : m (c :: cs) with
      | some r => simp [search, hm]
      | none => rw [search_cons_none hm]; exact ih h

/-! ## Helper lemmas: case-insensitive literal matching -/

/-- The 26 lower-case ASCII letters: the range of `lowerChar` on the
letters it changes. -/
def lcLetters : List Char :=
  ['a', 'b', 'c', 'd', 'e', 'f', 'g', 'h', 'i', 'j', 'k', 'l', 'm',
   'n', 'o', 'p', 'q', 'r', 's', 't', 'u', 'v', 'w', 'x', 'y', 'z']

/-- A successful table lookup pairs the key with a table entry. -/
theorem lookupChar_mem {t : List (Char × Char)} {c l : Char}
    (h : lookupChar t c = some l) : (c, l) ∈ t := by
  induction t with
  | nil => simp [lookupChar] at h
  | cons pr rest ih =>
    obtain ⟨u, v⟩ := pr
    by_cases hc : c = u
    · subst hc
      simp only [lookupChar, if_true, Option.some.injEq] at h
      subst h
      exact List.mem_cons_self _ _
    · simp only [lookupChar, if_neg hc] at h
      exact List.mem_cons_of_mem _ (ih h)

/-- Characters outside the lower-case letters are fixed points of case
folding in the strong sense: nothing else folds onto them. -/
theorem lowerChar_fix {c p : Char} (hp : p ∉ lcLetters)
    (h : lowerChar c = p) : c = p := by
  unfold lowerChar at h
  cases hl : lookupChar caseTable c with
  | none => rw [hl] at h; exact h
  | some l =>
    rw [hl] at h
    simp only [Option.getD_some] at h
    subst h
    have hmem : (c, l) ∈ caseTable := lookupChar_mem hl
    have : l ∈ caseTable.map Prod.snd := List.mem_map_of_mem _ hmem
    have heq : caseTable.map Prod.snd = lcLetters := by decide
    rw [heq] at this
    exact absurd this hp

/-- Successful literal match consumes exactly a case-variant of the
pattern. -/
theorem matchCI_some_decomp {p s : List Char} {r : List Char}
    (h : matchCI p s = some r) :
    ∃ u, s = u ++ r ∧ u.map lowerChar = p := by
  induction p generalizing s with
  | nil =>
    refine ⟨[], ?_, rfl⟩
    simpa [matchCI] using h
  | cons p ps ih =>
    cases s with
    | nil => simp [matchCI] at h
    | cons c cs =>
      by_cases hc : lowerChar c = p
      · simp only [matchCI, hc, if_pos rfl] at h
        obtain ⟨u, hu, hm⟩ := ih h
        exact ⟨c :: u, by simp [hu], by simp [hm, hc]⟩
      · simp [matchCI, hc] at h

/-- A case-variant of the pattern at the head of the text matches, leaving
exactly the tail. -/
theorem matchCI_append_of_map {p u : List Char} (t : List Char)
    (h : u.map lowerChar = p) : matchCI p (u ++ t) = some t := by
  induction u generalizing p with
  | nil => simp_all [matchCI]
  | cons c cs ih =>
    subst h
    simp [matchCI, ih rfl]

/-- Splitting a literal match of a concatenated pattern. -/
theorem matchCI_append_split {p q s : List Char} {r : List Char}
    (h : matchCI (p ++ q) s = some r) :
    ∃ m, matchCI p s = some m ∧ matchCI q m = some r := by
  induction p generalizing s with
  | nil => exact ⟨s, rfl, h⟩
  | cons c cs ih =>
    cases s with
    | nil => simp [matchCI] at h
    | cons d ds =>
      by_cases hd : lowerChar d = c
      · simp only [List.cons_append, matchCI, hd, if_pos rfl] at h ⊢
        exact ih h
      · simp [matchCI, hd] at h

/-! ## Helper lemmas: the retry client -/

/-- Event trace of a retry run whose every attempt fails: one attempt, then
a 10-second sleep before each of the remaining attempts. -/
def failTrace : Nat → List Ev
  | 0 => [.attempt]
  | n + 1 => .attempt :: .sleep 10 :: failTrace n

theorem failTrace_count_attempt (n : Nat) :
    (failTrace n).count Ev.attempt = n + 1 := by
  induction n with
  | zero => rfl
  | succ n ih => simp [failTrace, List.count_cons, ih]

theorem failTrace_events (n : Nat) :
    ∀ e ∈ failTrace n, e = Ev.attempt ∨ e = Ev.sleep 10 := by
  induction n with
  | zero =>
    intro e he
    simp only [failTrace, List.mem_singleton] at he
    exact Or.inl he
  | succ n ih =>
    intro e he
    simp only [failTrace, List.mem_cons] at he
    rcases he with rfl | rfl | h
    · exact Or.inl rfl
    · exact Or.inr rfl
    · exact ih e h

/-- With an always-failing capability the run makes every attempt, sleeps
between consecutive ones, and ends with the error of the last attempt. -/
theorem query_anthropic_allFail {E A : Type} {cap : Nat → Except E A}
    {err : Nat → E} (h : ∀ i, cap i = .error (err i)) :
    ∀ n s, query_anthropic cap s n = (failTrace n, .error (err (s + n))) := by
  intro n
  induction n with
  | zero => intro s; simp [query_anthropic, h s, failTrace]
  | succ n ih =>
    intro s
    have e : s + 1 + n = s + (n + 1) := by omega
    simp [query_anthropic, h s, failTrace, ih (s + 1), e]

/-- With a capability that fails on the first `k` attempt indices and
succeeds on the `k`-th, a budget of at least `k` reaches the success. -/
theorem query_anthropic_ok_after {E A : Type} {cap : Nat → Except E A} {a : A} :
    ∀ (k s n : Nat), (∀ i, i < k → ∃ e, cap (s + i) = .error e) →
      cap (s + k) = .ok a → k ≤ n →
      (query_anthropic cap s n).2 = .ok a := by
  intro k
  induction k with
  | zero =>
    intro s n _ hok _
    rw [Nat.add_zero] at hok
    cases n <;> simp [query_anthropic, hok]
  | succ k ih =>
    intro s n hfail hok hn
    obtain ⟨e, he⟩ := hfail 0 (Nat.succ_pos k)
    rw [Nat.add_zero] at he
    cases n with
    | zero => omega
    | succ m =>
      have hrec := ih (s + 1) m
        (fun i hi => by
          obtain ⟨e', he'⟩ := hfail (i + 1) (by omega)
          exact ⟨e', by rw [← he']; congr 1; omega⟩)
        (by rw [← hok]; congr 1; omega)
        (by omega)
      simp only [query_anthropic, he]
      simpa using hrec

/-- C2: if the query capability always fails, `query_anthropic` with retry
budget `n` makes exactly `n + 1` attempts, every event between them is the
fixed 10-second sleep, and it ends by propagating the error of the last
attempt as its single result; if the capability fails deterministically `k`
times and then succeeds, any budget of at least `k` returns the success. -/
theorem query_anthropic_retry :
    (∀ (E A : Type) (cap : Nat → Except E A) (err : Nat → E),
      (∀ i, cap i = Except.error (err i)) →
      ∀ n, query_anthropic cap 0 n = (failTrace n, Except.error (err n))
        ∧ (failTrace n).count Ev.attempt = n + 1
        ∧ ∀ e ∈ failTrace n, e = Ev.attempt ∨ e = Ev.sleep 10)
    ∧ (∀ (E A : Type) (cap : Nat → Except E A) (a : A) (k n : Nat),
      (∀ i, i < k → ∃ e, cap i = Except.error e) →
      cap k = Except.ok a → k ≤ n →
      (query_anthropic cap 0 n).2 = Except.ok a) := by
  constructor
  · intro E A cap err h n
    refine ⟨?_, failTrace_count_attempt n, failTrace_events n⟩
    simpa using query_anthropic_allFail h n 0
  · intro E A cap a k n hfail hok hn
    exact query_anthropic_ok_after k 0 n (fun i hi => by simpa using hfail i hi)
      (by simpa using hok) hn

/-- Witness for C2 at concrete capabilities. -/
theorem query_anthropic_retry_witness :
    query_anthropic (fun i => (Except.error i : Except Nat Nat)) 0 2
        = (failTrace 2, Except.error 2)
    ∧ (query_anthropic
        (fun i => if i < 2 then (Except.error i : Except Nat Nat)
                  else Except.ok 99) 0 3).2 = Except.ok 99 := by
  constructor
  · exact (query_anthropic_retry.1 Nat Nat _ (fun i => i) (fun i => rfl) 2).1
  · exact query_anthropic_retry.2 Nat Nat _ 99 2 3
      (fun i hi => ⟨i, by simp [hi]⟩) (by simp) (by omega)

/-- C7: when no authenticated query capability is available,
`run_daily_analysis` returns at once: the file system is unchanged and the
event trace is empty — no attempt and no sleep happens, hence no prompt is
consumed by the capability and nothing is written. -/
theorem run_daily_analysis_no_client
    (cap : String → Nat → Except String String) (now : DT) (fs : FS) :
    run_daily_analysis false cap now fs = (fs, []) := by
  simp [run_daily_analysis]

/-- C10: `save_results` with a horizon outside the configured alias mapping
raises `KeyError` before any file operation (the error result carries an
unchanged state, and the pair-level catch in `analyze_symbol_timeperiod`
accordingly leaves the file system exactly as it was); for every configured
horizon the lookup succeeds. -/
theorem save_results_keyerror :
    (∀ now symbol tp full_response parsed_data originalPrompt fs,
      assocFind time_mapping tp = none →
      save_results now symbol tp full_response parsed_data originalPrompt fs
        = Except.error ())
    ∧ (∀ cap now symbol tp fs, assocFind time_mapping tp = none →
      (analyze_symbol_timeperiod cap now symbol tp fs).1 = fs)
    ∧ (∀ tp, tp ∈ time_periods → (assocFind time_mapping tp).isSome = true) := by
  refine ⟨?_, ?_, ?_⟩
  · intro now symbol tp fr pd op fs h
    simp [save_results, h]
  · intro cap now symbol tp fs h
    simp only [analyze_symbol_timeperiod]
    cases hq : (query_anthropic (cap (generate_prompt symbol tp)) 0 3).2 with
    | error e => simp
    | ok response => simp [save_results, h]
  · intro tp htp
    simp only [time_periods, List.mem_cons, List.not_mem_nil, or_false] at htp
    rcases htp with rfl | rfl | rfl <;> decide

/-- Witness for C10 at the unconfigured horizon `"2 weeks"`. -/
theorem save_results_keyerror_witness :
    save_results ⟨2026, 10, 12, "2026-10-12 09:00", "T"⟩ "EURUSD" "2 weeks"
        "resp" none "prompt" [] = Except.error ()
    ∧ (assocFind time_mapping "1 week").isSome = true := by
  constructor
  · exact save_results_keyerror.1 _ "EURUSD" "2 weeks" "resp" none "prompt" []
      (by decide)
  · exact save_results_keyerror.2.2 "1 week" (by decide)

/-! ## C8: determinism of `parse_response` -/

/-- C8 counterexample: the returned string embeds the clock reading, so two
calls on the same text at different clock minutes return different
results. -/
theorem parse_response_clock_counterexample :
    parse_response "2026-10-12 09:00" "Low: 1 High: 2 Rating: 3"
      ≠ parse_response "2026-10-12 09:01" "Low: 1 High: 2 Rating: 3" := by
  decide

/-- C8 (amended): the success of `parse_response` and the extracted
low/high/rating fields are a pure deterministic function of the input text
alone (`parseFields`); the full returned string additionally embeds the
minute-precision clock reading, so calls agree exactly when the clock
rendering also agrees. -/
theorem parse_response_deterministic :
    (∀ nowHM response, parse_response nowHM response =
      (parseFields response.data).map fun p =>
        nowHM ++ "," ++ String.mk p.low ++ "," ++ String.mk p.high
          ++ "," ++ String.mk [p.rating])
    ∧ (∀ n1 n2 response,
      (parse_response n1 response).isSome = (parse_response n2 response).isSome) := by
  constructor
  · intro n r; rfl
  · intro n1 n2 r; simp [parse_response]

/-! ## C3: no partial record, total failure handling -/

/-- If a literal never case-matches anywhere, neither does any matcher that
starts by consuming it. -/
theorem search_bind_none {p : List Char} {α : Type} {g : List Char → Option α}
    {s : List Char} (h : search (matchCI p) s = none) :
    search (fun t => (matchCI p t).bind g) s = none := by
  cases hs : search (fun t => (matchCI p t).bind g) s with
  | none => rfl
  | some r =>
    obtain ⟨n, hn⟩ := exists_drop_of_search_eq_some hs
    cases hm : matchCI p (s.drop n) with
    | none => rw [hm] at hn; simp at hn
    | some m =>
      have hi : (search (matchCI p) s).isSome = true :=
        search_isSome_of_drop (n := n) (by simp [hm])
      rw [h] at hi
      simp at hi

/-- If a literal never case-matches anywhere, neither does any extension of
it. -/
theorem searchCI_none_extend {p q s : List Char}
    (h : search (matchCI p) s = none) :
    search (matchCI (p ++ q)) s = none := by
  cases hs : search (matchCI (p ++ q)) s with
  | none => rfl
  | some r =>
    obtain ⟨n, hn⟩ := exists_drop_of_search_eq_some hs
    obtain ⟨m, hm, -⟩ := matchCI_append_split hn
    have hi : (search (matchCI p) s).isSome = true :=
      search_isSome_of_drop (n := n) (by simp [hm])
    rw [h] at hi
    simp at hi

/-- Text without any case variant of `rating` defeats both rating
patterns. -/
theorem rating_searches_none {s : List Char}
    (h : search (matchCI "rating".data) s = none) :
    search matchPrimaryRatingAt s = none
      ∧ search matchFallbackRatingAt s = none := by
  constructor
  · have hcolon : search (matchCI "rating:".data) s = none :=
      searchCI_none_extend (q := [':']) h
    exact search_bind_none (g := fun r =>
      match r.dropWhile pyIsSpace with
      | c :: _ => if isRating c then some c else none
      | [] => none) hcolon
  · exact search_bind_none (g := scanRating) h

/-- C3: `parse_response` never throws (the embedding is a total function
into an `Option`, mirroring the source's catch-all); when a pass does not
resolve all three fields the pass contributes nothing, and when both passes
fail the result is `None` — never a partial record.  In particular text
without the `rating` label (hence with at most the other two labels)
parses to `None`. -/
theorem parse_response_no_partial :
    (∀ s : List Char,
      ((search (matchPrimaryNumAt "low:".data) s).isSome = false
        ∨ (search (matchPrimaryNumAt "high:".data) s).isSome = false
        ∨ (search matchPrimaryRatingAt s).isSome = false) →
      ((search (matchFallbackNumAt "low".data) s).isSome = false
        ∨ (search (matchFallbackNumAt "high".data) s).isSome = false
        ∨ (search matchFallbackRatingAt s).isSome = false) →
      parseFields s = none)
    ∧ (∀ s : List Char, search (matchCI "rating".data) s = none →
      parseFields s = none)
    ∧ (∀ nowHM response, parseFields response.data = none →
      parse_response nowHM response = none) := by
  have main : ∀ s : List Char,
      ((search (matchPrimaryNumAt "low:".data) s).isSome = false
        ∨ (search (matchPrimaryNumAt "high:".data) s).isSome = false
        ∨ (search matchPrimaryRatingAt s).isSome = false) →
      ((search (matchFallbackNumAt "low".data) s).isSome = false
        ∨ (search (matchFallbackNumAt "high".data) s).isSome = false
        ∨ (search matchFallbackRatingAt s).isSome = false) →
      parseFields s = none := by
    intro s h1 h2
    cases hl : search (matchPrimaryNumAt "low:".data) s <;>
      cases hh : search (matchPrimaryNumAt "high:".data) s <;>
        cases hr : search matchPrimaryRatingAt s <;>
          cases hfl : search (matchFallbackNumAt "low".data) s <;>
            cases hfh : search (matchFallbackNumAt "high".data) s <;>
              cases hfr : search matchFallbackRatingAt s <;>
                simp_all [parseFields]
  refine ⟨main, ?_, ?_⟩
  · intro s h
    obtain ⟨h1, h2⟩ := rating_searches_none h
    exact main s (Or.inr (Or.inr (by simp [h1]))) (Or.inr (Or.inr (by simp [h2])))
  · intro nowHM response h
    simp [parse_response, h]

/-- Witness for C3 on text carrying only the `Low` and `High` labels. -/
theorem parse_response_no_partial_witness :
    search (matchCI "rating".data) "Low: 1 High: 2".data = none
    ∧ parseFields "Low: 1 High: 2".data = none := by
  refine ⟨by decide, ?_⟩
  exact parse_response_no_partial.2.1 "Low: 1 High: 2".data (by decide)

/-! ## C5: ledger growth -/

/-- Concatenation of newline-terminated ledger lines, in order. -/
def joinNL : List String → String
  | [] => ""
  | l :: ls => l ++ "\n" ++ joinNL ls

/-- Appending `m` parsed results to one ledger adds exactly their `m`
newline-terminated lines, in call order, after the untouched pre-existing
content. -/
theorem foldl_write_parsed (pre symbol key : String) :
    ∀ (L : List String) (fs : FS),
      (fsGet (L.foldl (fun acc pd => write_parsed_result pre symbol key pd acc) fs)
          (parsedName pre symbol key)).getD ""
        = ((fsGet fs (parsedName pre symbol key)).getD "") ++ joinNL L
      ∧ (L ≠ [] →
        (fsGet (L.foldl (fun acc pd => write_parsed_result pre symbol key pd acc) fs)
          (parsedName pre symbol key)).isSome = true)
      ∧ ∀ m, m ≠ parsedName pre symbol key →
        fsGet (L.foldl (fun acc pd => write_parsed_result pre symbol key pd acc) fs) m
          = fsGet fs m := by
  intro L
  induction L with
  | nil =>
    intro fs
    refine ⟨?_, fun h => absurd rfl h, fun m _ => rfl⟩
    simp [joinNL, String.append_empty]
  | cons l ls ih =>
    intro fs
    obtain ⟨ihc, ihs, ihf⟩ := ih (write_parsed_result pre symbol key l fs)
    refine ⟨?_, ?_, ?_⟩
    · rw [List.foldl_cons, ihc, write_parsed_result,
        fsGet_append_self, Option.getD_some, joinNL]
      simp [String.append_assoc]
    · intro _
      rw [List.foldl_cons]
      cases ls with
      | nil =>
        rw [List.foldl_nil, write_parsed_result, fsGet_append_self]
        rfl
      | cons a as => exact ihs (by simp)
    · intro m hm
      rw [List.foldl_cons, ihf m hm, write_parsed_result,
        fsGet_append_ne (Ne.symm hm)]

/-- C5: `m` successful extractions for the same (instrument, horizon)
append exactly `m` new newline-terminated lines to that pair's ledger, in
call order, leaving all pre-existing content and every other file
unchanged; the ledger name is `parsedName`, a function of the folder, the
instrument and the horizon alias only (`write_parsed_result` takes no
date); each appended line is the comma-joined
`timestamp,low,high,rating` produced by `parse_response`. -/
theorem ledger_growth :
    (∀ (pre symbol key : String) (L : List String) (fs : FS),
      write_parsed_result pre symbol key "x" fs
          = fsAppend (parsedName pre symbol key) "x" fs
      ∧ (L ≠ [] →
        fsGet (L.foldl (fun acc pd => write_parsed_result pre symbol key pd acc) fs)
            (parsedName pre symbol key)
          = some (((fsGet fs (parsedName pre symbol key)).getD "") ++ joinNL L))
      ∧ ∀ m, m ≠ parsedName pre symbol key →
          fsGet (L.foldl (fun acc pd => write_parsed_result pre symbol key pd acc) fs) m
            = fsGet fs m)
    ∧ (∀ nowHM response p, parseFields response.data = some p →
      parse_response nowHM response
        = some (nowHM ++ "," ++ String.mk p.low ++ "," ++ String.mk p.high
            ++ "," ++ String.mk [p.rating])) := by
  constructor
  · intro pre symbol key L fs
    refine ⟨rfl, ?_, (foldl_write_parsed pre symbol key L fs).2.2⟩
    intro hL
    have h1 := (foldl_write_parsed pre symbol key L fs).1
    have h2 := (foldl_write_parsed pre symbol key L fs).2.1 hL
    cases hf : fsGet (L.foldl
        (fun acc pd => write_parsed_result pre symbol key pd acc) fs)
        (parsedName pre symbol key) with
    | none => rw [hf] at h2; simp at h2
    | some c => rw [hf] at h1; simp only [Option.getD_some] at h1; rw [h1]
  · intro nowHM response p h
    simp [parse_response, h]

/-- Witness for C5: two appended extractions on an initially non-empty
ledger. -/
theorem ledger_growth_witness :
    fsGet ((["a,1,2,3", "b,4,5,6"].foldl
        (fun acc pd => write_parsed_result "Data/" "EURUSD" "1_week" pd acc)
        [(parsedName "Data/" "EURUSD" "1_week", "old,0,0,0\n")]))
      (parsedName "Data/" "EURUSD" "1_week")
        = some "old,0,0,0\na,1,2,3\nb,4,5,6\n"
    ∧ parse_response "2026-10-12 09:00" "Low: 1 High: 2 Rating: 3"
        = some "2026-10-12 09:00,1,2,3" := by
  constructor
  · rw [(ledger_growth.1 "Data/" "EURUSD" "1_week" ["a,1,2,3", "b,4,5,6"]
      [(parsedName "Data/" "EURUSD" "1_week", "old,0,0,0\n")]).2.1 (by decide)]
    decide
  · rw [ledger_growth.2 "2026-10-12 09:00" "Low: 1 High: 2 Rating: 3"
      ⟨['1'], ['2'], '3'⟩ (by decide)]
    decide

/-! ## Per-pair pipeline lemmas -/

/-- A pair whose query succeeds and whose response parses performs exactly
one run record write followed by exactly one ledger append. -/
theorem analyze_fs_ok_some {cap : String → Nat → Except String String}
    {now : DT} {symbol tp key response out : String} {fs : FS}
    (hq : (query_anthropic (cap (generate_prompt symbol tp)) 0 3).2
        = .ok response)
    (hk : assocFind time_mapping tp = some key)
    (hp : parse_response now.hm response = some out) :
    analyze_symbol_timeperiod cap now symbol tp fs =
      (fsAppend (parsedName "Data/" symbol key) out
        (fsWrite (fullName now symbol key)
          (encodeRun now.iso (generate_prompt symbol tp) symbol tp response) fs),
       (query_anthropic (cap (generate_prompt symbol tp)) 0 3).1
         ++ [.sleep 10]) := by
  simp only [analyze_symbol_timeperiod, hq, save_results, hk, hp,
    parse_folders, List.foldl_cons, List.foldl_nil, write_parsed_result]

/-- A pair whose query succeeds but whose response does not parse performs
exactly the run record write and nothing else. -/
theorem analyze_fs_ok_none {cap : String → Nat → Except String String}
    {now : DT} {symbol tp key response : String} {fs : FS}
    (hq : (query_anthropic (cap (generate_prompt symbol tp)) 0 3).2
        = .ok response)
    (hk : assocFind time_mapping tp = some key)
    (hp : parse_response now.hm response = none) :
    analyze_symbol_timeperiod cap now symbol tp fs =
      (fsWrite (fullName now symbol key)
        (encodeRun now.iso (generate_prompt symbol tp) symbol tp response) fs,
       (query_anthropic (cap (generate_prompt symbol tp)) 0 3).1
         ++ [.sleep 10]) := by
  simp only [analyze_symbol_timeperiod, hq, save_results, hk, hp]

/-- A pair whose query exhausts its retries is caught at the pair level:
the file system is untouched (no run record either — the exception bypasses
`save_results` entirely). -/
theorem analyze_fs_error {cap : String → Nat → Except String String}
    {now : DT} {symbol tp e : String} {fs : FS}
    (hq : (query_anthropic (cap (generate_prompt symbol tp)) 0 3).2
        = .error e) :
    analyze_symbol_timeperiod cap now symbol tp fs =
      (fs, (query_anthropic (cap (generate_prompt symbol tp)) 0 3).1) := by
  simp only [analyze_symbol_timeperiod, hq]

/-- C4: for a pair whose query succeeded, if extraction succeeds exactly
one parsed line is appended to that pair's ledger and exactly one run
record is written (every other file is untouched); if extraction fails the
run record is still written and nothing is appended to any ledger. -/
theorem analyze_record_invariant :
    ∀ (cap : String → Nat → Except String String) (now : DT)
      (symbol tp key response : String) (fs : FS),
      (query_anthropic (cap (generate_prompt symbol tp)) 0 3).2
          = Except.ok response →
      assocFind time_mapping tp = some key →
      ((∀ out, parse_response now.hm response = some out →
        fsGet (analyze_symbol_timeperiod cap now symbol tp fs).1
            (parsedName "Data/" symbol key)
          = some (((fsGet fs (parsedName "Data/" symbol key)).getD "")
              ++ out ++ "\n")
        ∧ fsGet (analyze_symbol_timeperiod cap now symbol tp fs).1
            (fullName now symbol key)
          = some (encodeRun now.iso (generate_prompt symbol tp) symbol tp response)
        ∧ ∀ m, m ≠ parsedName "Data/" symbol key →
            m ≠ fullName now symbol key →
            fsGet (analyze_symbol_timeperiod cap now symbol tp fs).1 m
              = fsGet fs m)
      ∧ (parse_response now.hm response = none →
        fsGet (analyze_symbol_timeperiod cap now symbol tp fs).1
            (fullName now symbol key)
          = some (encodeRun now.iso (generate_prompt symbol tp) symbol tp response)
        ∧ ∀ m, m ≠ fullName now symbol key →
            fsGet (analyze_symbol_timeperiod cap now symbol tp fs).1 m
              = fsGet fs m)) := by
  intro cap now symbol tp key response fs hq hk
  constructor
  · intro out hp
    rw [analyze_fs_ok_some hq hk hp]
    refine ⟨?_, ?_, ?_⟩
    · rw [fsGet_append_self,
        fsGet_write_ne (Ne.symm (parsedName_ne_fullName symbol key symbol key now))]
    · rw [fsGet_append_ne (parsedName_ne_fullName symbol key symbol key now),
        fsGet_write_self]
    · intro m hm1 hm2
      rw [fsGet_append_ne (Ne.symm hm1), fsGet_write_ne (Ne.symm hm2)]
  · intro hp
    rw [analyze_fs_ok_none hq hk hp]
    refine ⟨fsGet_write_self _ _ _, fun m hm => fsGet_write_ne (Ne.symm hm) _ _⟩

/-- Witness for C4: a concrete pair with a first-try success and a parsing
response, checked on the empty file system. -/
theorem analyze_record_invariant_witness :
    fsGet (analyze_symbol_timeperiod
        (fun _ _ => Except.ok "Low: 1 High: 2 Rating: 3")
        ⟨2026, 10, 12, "2026-10-12 09:00", "T"⟩ "EURUSD" "1 week" []).1
      (parsedName "Data/" "EURUSD" "1_week")
      = some "2026-10-12 09:00,1,2,3\n" := by
  have h := (analyze_record_invariant
    (fun _ _ => Except.ok "Low: 1 High: 2 Rating: 3")
    ⟨2026, 10, 12, "2026-10-12 09:00", "T"⟩ "EURUSD" "1 week" "1_week"
    "Low: 1 High: 2 Rating: 3" [] rfl (by decide)).1
    "2026-10-12 09:00,1,2,3" (by decide)
  rw [h.1]
  decide

/-- C9: running the pipeline for the same (instrument, horizon) twice on
one calendar day writes both times to the same single run record file,
whose final content is the second call's record (overwrite), while the
ledger receives the two appended lines in order when both extractions
succeeded. -/
theorem same_day_run :
    ∀ (now1 now2 : DT) (symbol tp key r1 r2 l1 l2 p1 p2 : String)
      (fs fs1 fs2 : FS),
      now1.year = now2.year → now1.month = now2.month → now1.day = now2.day →
      assocFind time_mapping tp = some key →
      save_results now1 symbol tp r1 (some l1) p1 fs = Except.ok fs1 →
      save_results now2 symbol tp r2 (some l2) p2 fs1 = Except.ok fs2 →
      fullName now1 symbol key = fullName now2 symbol key
      ∧ fsGet fs2 (fullName now2 symbol key)
          = some (encodeRun now2.iso p2 symbol tp r2)
      ∧ fsGet fs2 (parsedName "Data/" symbol key)
          = some (((fsGet fs (parsedName "Data/" symbol key)).getD "")
              ++ l1 ++ "\n" ++ l2 ++ "\n") := by
  intro now1 now2 symbol tp key r1 r2 l1 l2 p1 p2 fs fs1 fs2 hy hm hd hk hs1 hs2
  simp only [save_results, hk, parse_folders, List.foldl_cons, List.foldl_nil,
    write_parsed_result, Except.ok.injEq] at hs1 hs2
  subst hs1
  subst hs2
  refine ⟨fullName_eq_of_same_day hy hm hd symbol key, ?_, ?_⟩
  · rw [fsGet_append_ne (parsedName_ne_fullName symbol key symbol key now2),
      fsGet_write_self]
  · rw [fsGet_append_self,
      fsGet_write_ne (Ne.symm (parsedName_ne_fullName symbol key symbol key now2)),
      fsGet_append_self,
      fsGet_write_ne (Ne.symm (parsedName_ne_fullName symbol key symbol key now1))]
    rfl

/-- Witness for C9 at two concrete same-day instants. -/
theorem same_day_run_witness :
    ∃ fs1 fs2 : FS,
      save_results ⟨2026, 10, 12, "2026-10-12 09:00", "T1"⟩ "EURUSD" "1 week"
        "ra" (some "la") "pa" [] = Except.ok fs1
      ∧ save_results ⟨2026, 10, 12, "2026-10-12 09:05", "T2"⟩ "EURUSD" "1 week"
        "rb" (some "lb") "pb" fs1 = Except.ok fs2
      ∧ fsGet fs2 (parsedName "Data/" "EURUSD" "1_week") = some "la\nlb\n" := by
  refine ⟨_, _, rfl, rfl, ?_⟩
  have h := same_day_run ⟨2026, 10, 12, "2026-10-12 09:00", "T1"⟩
    ⟨2026, 10, 12, "2026-10-12 09:05", "T2"⟩ "EURUSD" "1 week" "1_week"
    "ra" "rb" "la" "lb" "pa" "pb" [] _ _ rfl rfl rfl (by decide) rfl rfl
  rw [h.2.2]
  decide

/-! ## C6: batch isolation -/

/-- A capability that fails on every attempt makes the whole retry run
fail (with some final error). -/
theorem query_fail_of_allFail {E A : Type} {cap : Nat → Except E A}
    (h : ∀ i, ∃ e, cap i = .error e) :
    ∀ n s, ∃ e, (query_anthropic cap s n).2 = .error e := by
  intro n
  induction n with
  | zero =>
    intro s
    obtain ⟨e, he⟩ := h s
    exact ⟨e, by simp [query_anthropic, he]⟩
  | succ n ih =>
    intro s
    obtain ⟨e, he⟩ := h s
    obtain ⟨e', he'⟩ := ih (s + 1)
    exact ⟨e', by simp [query_anthropic, he, he']⟩

/-- The matrix traversal of `run_daily_analysis` in configuration order:
the single configured instrument, horizons inner. -/
theorem run_daily_fs (cap : String → Nat → Except String String) (now : DT)
    (fs : FS) :
    (run_daily_analysis true cap now fs).1 =
      (analyze_symbol_timeperiod cap now "EURUSD" "1 month"
        (analyze_symbol_timeperiod cap now "EURUSD" "1 week"
          (analyze_symbol_timeperiod cap now "EURUSD" "3 months" fs).1).1).1 := by
  simp [run_daily_analysis, symbols, time_periods]

theorem key_3months : assocFind time_mapping "3 months" = some "3_months" := by
  decide

theorem key_1week : assocFind time_mapping "1 week" = some "1_week" := by
  decide

theorem key_1month : assocFind time_mapping "1 month" = some "1_month" := by
  decide

/-- C6: when the query capability of exactly one (instrument, horizon) pair
raises unconditionally, the failure is caught at that pair and the
orchestrator still produces, for every other pair of the matrix, its run
record and its appended ledger line. -/
theorem batch_isolation :
    ∀ (cap : String → Nat → Except String String) (now : DT) (fs : FS)
      (tbad : String) (resp line : String → String),
      tbad ∈ time_periods →
      (∀ n, ∃ e, cap (generate_prompt "EURUSD" tbad) n = Except.error e) →
      (∀ t, t ∈ time_periods → t ≠ tbad →
        (query_anthropic (cap (generate_prompt "EURUSD" t)) 0 3).2
            = Except.ok (resp t)
        ∧ parse_response now.hm (resp t) = some (line t)) →
      ∀ t, t ∈ time_periods → t ≠ tbad →
        ∃ key, assocFind time_mapping t = some key
        ∧ fsGet (run_daily_analysis true cap now fs).1
            (fullName now "EURUSD" key)
          = some (encodeRun now.iso (generate_prompt "EURUSD" t)
              "EURUSD" t (resp t))
        ∧ fsGet (run_daily_analysis true cap now fs).1
            (parsedName "Data/" "EURUSD" key)
          = some (((fsGet fs (parsedName "Data/" "EURUSD" key)).getD "")
              ++ line t ++ "\n") := by
  intro cap now fs tbad resp line htbad hbad hgood t ht htne
  obtain ⟨eb, hqbad⟩ := query_fail_of_allFail hbad 3 0
  rw [run_daily_fs]
  have npf3 := parsedName_ne_fullName "EURUSD" "3_months" "EURUSD" "3_months" now
  have npf3w := parsedName_ne_fullName "EURUSD" "3_months" "EURUSD" "1_week" now
  have npf3m := parsedName_ne_fullName "EURUSD" "3_months" "EURUSD" "1_month" now
  have npfw3 := parsedName_ne_fullName "EURUSD" "1_week" "EURUSD" "3_months" now
  have npfw := parsedName_ne_fullName "EURUSD" "1_week" "EURUSD" "1_week" now
  have npfwm := parsedName_ne_fullName "EURUSD" "1_week" "EURUSD" "1_month" now
  have npfm3 := parsedName_ne_fullName "EURUSD" "1_month" "EURUSD" "3_months" now
  have npfmw := parsedName_ne_fullName "EURUSD" "1_month" "EURUSD" "1_week" now
  have npfm := parsedName_ne_fullName "EURUSD" "1_month" "EURUSD" "1_month" now
  have nff3w : fullName now "EURUSD" "3_months" ≠ fullName now "EURUSD" "1_week" :=
    fullName_ne_of_key now "EURUSD" (by decide)
  have nff3m : fullName now "EURUSD" "3_months" ≠ fullName now "EURUSD" "1_month" :=
    fullName_ne_of_key now "EURUSD" (by decide)
  have nffwm : fullName now "EURUSD" "1_week" ≠ fullName now "EURUSD" "1_month" :=
    fullName_ne_of_key now "EURUSD" (by decide)
  have npp3w : parsedName "Data/" "EURUSD" "3_months"
      ≠ parsedName "Data/" "EURUSD" "1_week" := by decide
  have npp3m : parsedName "Data/" "EURUSD" "3_months"
      ≠ parsedName "Data/" "EURUSD" "1_month" := by decide
  have nppwm : parsedName "Data/" "EURUSD" "1_week"
      ≠ parsedName "Data/" "EURUSD" "1_month" := by decide
  simp only [time_periods, List.mem_cons, List.not_mem_nil, or_false] at htbad ht
  rcases htbad with rfl | rfl | rfl <;> rcases ht with rfl | rfl | rfl
  · exact absurd rfl htne
  · -- bad = "3 months", t = "1 week"
    obtain ⟨hq1, hp1⟩ := hgood "1 week" (by simp [time_periods]) (by decide)
    obtain ⟨hq2, hp2⟩ := hgood "1 month" (by simp [time_periods]) (by decide)
    refine ⟨"1_week", by decide, ?_, ?_⟩
    · simp only [analyze_fs_error hqbad,
        analyze_fs_ok_some hq1 key_1week hp1,
        analyze_fs_ok_some hq2 key_1month hp2]
      rw [fsGet_append_ne npfmw, fsGet_write_ne (Ne.symm nffwm),
        fsGet_append_ne npfw, fsGet_write_self]
    · simp only [analyze_fs_error hqbad,
        analyze_fs_ok_some hq1 key_1week hp1,
        analyze_fs_ok_some hq2 key_1month hp2]
      rw [fsGet_append_ne (Ne.symm nppwm), fsGet_write_ne (Ne.symm npfwm),
        fsGet_append_self, fsGet_write_ne (Ne.symm npfw)]
  · -- bad = "3 months", t = "1 month"
    obtain ⟨hq1, hp1⟩ := hgood "1 week" (by simp [time_periods]) (by decide)
    obtain ⟨hq2, hp2⟩ := hgood "1 month" (by simp [time_periods]) (by decide)
    refine ⟨"1_month", by decide, ?_, ?_⟩
    · simp only [analyze_fs_error hqbad,
        analyze_fs_ok_some hq1 key_1week hp1,
        analyze_fs_ok_some hq2 key_1month hp2]
      rw [fsGet_append_ne npfm, fsGet_write_self]
    · simp only [analyze_fs_error hqbad,
        analyze_fs_ok_some hq1 key_1week hp1,
        analyze_fs_ok_some hq2 key_1month hp2]
      rw [fsGet_append_self, fsGet_write_ne (Ne.symm npfm),
        fsGet_append_ne nppwm, fsGet_write_ne (Ne.symm npfmw)]
  · -- bad = "1 week", t = "3 months"
    obtain ⟨hq1, hp1⟩ := hgood "3 months" (by simp [time_periods]) (by decide)
    obtain ⟨hq2, hp2⟩ := hgood "1 month" (by simp [time_periods]) (by decide)
    refine ⟨"3_months", by decide, ?_, ?_⟩
    · simp only [analyze_fs_error hqbad,
        analyze_fs_ok_some hq1 key_3months hp1,
        analyze_fs_ok_some hq2 key_1month hp2]
      rw [fsGet_append_ne npfm3, fsGet_write_ne (Ne.symm nff3m),
        fsGet_append_ne npf3, fsGet_write_self]
    · simp only [analyze_fs_error hqbad,
        analyze_fs_ok_some hq1 key_3months hp1,
        analyze_fs_ok_some hq2 key_1month hp2]
      rw [fsGet_append_ne (Ne.symm npp3m), fsGet_write_ne (Ne.symm npf3m),
        fsGet_append_self, fsGet_write_ne (Ne.symm npf3)]
  · exact absurd rfl htne
  · -- bad = "1 week", t = "1 month"
    obtain ⟨hq1, hp1⟩ := hgood "3 months" (by simp [time_periods]) (by decide)
    obtain ⟨hq2, hp2⟩ := hgood "1 month" (by simp [time_periods]) (by decide)
    refine ⟨"1_month", by decide, ?_, ?_⟩
    · simp only [analyze_fs_error hqbad,
        analyze_fs_ok_some hq1 key_3months hp1,
        analyze_fs_ok_some hq2 key_1month hp2]
      rw [fsGet_append_ne npfm, fsGet_write_self]
    · simp only [analyze_fs_error hqbad,
        analyze_fs_ok_some hq1 key_3months hp1,
        analyze_fs_ok_some hq2 key_1month hp2]
      rw [fsGet_append_self, fsGet_write_ne (Ne.symm npfm),
        fsGet_append_ne npp3m, fsGet_write_ne (Ne.symm npfm3)]
  · -- bad = "1 month", t = "3 months"
    obtain ⟨hq1, hp1⟩ := hgood "3 months" (by simp [time_periods]) (by decide)
    obtain ⟨hq2, hp2⟩ := hgood "1 week" (by simp [time_periods]) (by decide)
    refine ⟨"3_months", by decide, ?_, ?_⟩
    · simp only [analyze_fs_error hqbad,
        analyze_fs_ok_some hq1 key_3months hp1,
        analyze_fs_ok_some hq2 key_1week hp2]
      rw [fsGet_append_ne npfw3, fsGet_write_ne (Ne.symm nff3w),
        fsGet_append_ne npf3, fsGet_write_self]
    · simp only [analyze_fs_error hqbad,
        analyze_fs_ok_some hq1 key_3months hp1,
        analyze_fs_ok_some hq2 key_1week hp2]
      rw [fsGet_append_ne (Ne.symm npp3w), fsGet_write_ne (Ne.symm npf3w),
        fsGet_append_self, fsGet_write_ne (Ne.symm npf3)]
  · -- bad = "1 month", t = "1 week"
    obtain ⟨hq1, hp1⟩ := hgood "3 months" (by simp [time_periods]) (by decide)
    obtain ⟨hq2, hp2⟩ := hgood "1 week" (by simp [time_periods]) (by decide)
    refine ⟨"1_week", by decide, ?_, ?_⟩
    · simp only [analyze_fs_error hqbad,
        analyze_fs_ok_some hq1 key_3months hp1,
        analyze_fs_ok_some hq2 key_1week hp2]
      rw [fsGet_append_ne npfw, fsGet_write_self]
    · simp only [analyze_fs_error hqbad,
        analyze_fs_ok_some hq1 key_3months hp1,
        analyze_fs_ok_some hq2 key_1week hp2]
      rw [fsGet_append_self, fsGet_write_ne (Ne.symm npfw),
        fsGet_append_ne npp3w, fsGet_write_ne (Ne.symm npfw3)]
  · exact absurd rfl htne

set_option maxRecDepth 20000 in
/-- Witness for C6: a concrete capability failing exactly on the `1 week`
pair still yields the `3 months` ledger line. -/
theorem batch_isolation_witness :
    fsGet (run_daily_analysis true
        (fun p _ => if p = generate_prompt "EURUSD" "1 week"
          then Except.error "boom" else Except.ok "Low: 1 High: 2 Rating: 3")
        ⟨2026, 10, 12, "2026-10-12 09:00", "T"⟩ []).1
      (parsedName "Data/" "EURUSD" "3_months")
      = some "2026-10-12 09:00,1,2,3\n" := by
  obtain ⟨key, hkey, hfull, hparsed⟩ :=
    batch_isolation
      (fun p _ => if p = generate_prompt "EURUSD" "1 week"
        then Except.error "boom" else Except.ok "Low: 1 High: 2 Rating: 3")
      ⟨2026, 10, 12, "2026-10-12 09:00", "T"⟩ [] "1 week"
      (fun _ => "Low: 1 High: 2 Rating: 3")
      (fun _ => "2026-10-12 09:00,1,2,3")
      (by decide)
      (fun n => ⟨"boom", rfl⟩)
      (fun t ht htn => by
        simp only [time_periods, List.mem_cons, List.not_mem_nil, or_false] at ht
        rcases ht with rfl | rfl | rfl
        · exact ⟨rfl, by decide⟩
        · exact absurd rfl htn
        · exact ⟨rfl, by decide⟩)
      "3 months" (by decide) (by decide)
  rw [key_3months] at hkey
  obtain rfl : key = "3_months" := (Option.some.inj hkey).symm
  rw [hparsed]
  rfl

/-! ## C1: the labelled-substring round trip -/

theorem lc_colon : lowerChar ':' = ':' := by decide

theorem lc_space : lowerChar ' ' = ' ' := by decide

theorem lc_d0 : lowerChar '0' = '0' := by decide

theorem lc_d2 : lowerChar '2' = '2' := by decide

theorem lc_d4 : lowerChar '4' = '4' := by decide

theorem lc_d5 : lowerChar '5' = '5' := by decide

theorem dig_0 : Char.isDigit '0' = true := rfl

theorem dig_2 : Char.isDigit '2' = true := rfl

theorem dig_4 : Char.isDigit '4' = true := rfl

theorem dig_5 : Char.isDigit '5' = true := rfl

theorem dig_sp : Char.isDigit ' ' = false := rfl

theorem dig_colon : Char.isDigit ':' = false := rfl

theorem sp_sp : pyIsSpace ' ' = true := rfl

theorem sp_2 : pyIsSpace '2' = false := rfl

theorem sp_4 : pyIsSpace '4' = false := rfl

theorem sp_5 : pyIsSpace '5' = false := rfl

theorem rat_5 : isRating '5' = true := rfl

/-- Peeling one character off a case-folding equation. -/
theorem map_lower_cons {l : List Char} {b : Char} {t : List Char}
    (h : l.map lowerChar = b :: t) :
    ∃ a l', l = a :: l' ∧ lowerChar a = b ∧ l'.map lowerChar = t := by
  cases l with
  | nil => simp at h
  | cons a l' =>
    simp only [List.map_cons, List.cons.injEq] at h
    exact ⟨a, l', rfl, h.1, h.2⟩

/-- The canonical (lower-case) labelled substring of the claim. -/
def canonSub : List Char := "low: 2000 high: 4000 rating: 5".data

/-- On a text starting with any case variant of the canonical substring,
each primary pattern finds its leftmost match inside the substring,
capturing `2000`, `4000` and `5`, whatever follows. -/
theorem parse_core_values (post : List Char) {u : List Char}
    (hu : u.map lowerChar = canonSub) :
    search (matchPrimaryNumAt "low:".data) (u ++ post) = some "2000".data
    ∧ search (matchPrimaryNumAt "high:".data) (u ++ post) = some "4000".data
    ∧ search matchPrimaryRatingAt (u ++ post) = some '5' := by
  rw [show canonSub = 'l' :: 'o' :: 'w' :: ':' :: ' ' :: '2' :: '0' :: '0' :: '0' :: ' ' :: 'h' :: 'i' :: 'g' :: 'h' :: ':' :: ' ' :: '4' :: '0' :: '0' :: '0' :: ' ' :: 'r' :: 'a' :: 't' :: 'i' :: 'n' :: 'g' :: ':' :: ' ' :: '5' :: ([] : List Char) from rfl] at hu
  obtain ⟨c0, u, rfl, h0, hu⟩ := map_lower_cons hu
  obtain ⟨c1, u, rfl, h1, hu⟩ := map_lower_cons hu
  obtain ⟨c2, u, rfl, h2, hu⟩ := map_lower_cons hu
  obtain ⟨c3, u, rfl, h3, hu⟩ := map_lower_cons hu
  obtain ⟨c4, u, rfl, h4, hu⟩ := map_lower_cons hu
  obtain ⟨c5, u, rfl, h5, hu⟩ := map_lower_cons hu
  obtain ⟨c6, u, rfl, h6, hu⟩ := map_lower_cons hu
  obtain ⟨c7, u, rfl, h7, hu⟩ := map_lower_cons hu
  obtain ⟨c8, u, rfl, h8, hu⟩ := map_lower_cons hu
  obtain ⟨c9, u, rfl, h9, hu⟩ := map_lower_cons hu
  obtain ⟨c10, u, rfl, h10, hu⟩ := map_lower_cons hu
  obtain ⟨c11, u, rfl, h11, hu⟩ := map_lower_cons hu
  obtain ⟨c12, u, rfl, h12, hu⟩ := map_lower_cons hu
  obtain ⟨c13, u, rfl, h13, hu⟩ := map_lower_cons hu
  obtain ⟨c14, u, rfl, h14, hu⟩ := map_lower_cons hu
  obtain ⟨c15, u, rfl, h15, hu⟩ := map_lower_cons hu
  obtain ⟨c16, u, rfl, h16, hu⟩ := map_lower_cons hu
  obtain ⟨c17, u, rfl, h17, hu⟩ := map_lower_cons hu
  obtain ⟨c18, u, rfl, h18, hu⟩ := map_lower_cons hu
  obtain ⟨c19, u, rfl, h19, hu⟩ := map_lower_cons hu
  obtain ⟨c20, u, rfl, h20, hu⟩ := map_lower_cons hu
  obtain ⟨c21, u, rfl, h21, hu⟩ := map_lower_cons hu
  obtain ⟨c22, u, rfl, h22, hu⟩ := map_lower_cons hu
  obtain ⟨c23, u, rfl, h23, hu⟩ := map_lower_cons hu
  obtain ⟨c24, u, rfl, h24, hu⟩ := map_lower_cons hu
  obtain ⟨c25, u, rfl, h25, hu⟩ := map_lower_cons hu
  obtain ⟨c26, u, rfl, h26, hu⟩ := map_lower_cons hu
  obtain ⟨c27, u, rfl, h27, hu⟩ := map_lower_cons hu
  obtain ⟨c28, u, rfl, h28, hu⟩ := map_lower_cons hu
  obtain ⟨c29, u, rfl, h29, hu⟩ := map_lower_cons hu
  rw [List.map_eq_nil_iff] at hu
  subst hu
  obtain rfl : c3 = ':' := lowerChar_fix (by decide) h3
  obtain rfl : c4 = ' ' := lowerChar_fix (by decide) h4
  obtain rfl : c5 = '2' := lowerChar_fix (by decide) h5
  obtain rfl : c6 = '0' := lowerChar_fix (by decide) h6
  obtain rfl : c7 = '0' := lowerChar_fix (by decide) h7
  obtain rfl : c8 = '0' := lowerChar_fix (by decide) h8
  obtain rfl : c9 = ' ' := lowerChar_fix (by decide) h9
  obtain rfl : c14 = ':' := lowerChar_fix (by decide) h14
  obtain rfl : c15 = ' ' := lowerChar_fix (by decide) h15
  obtain rfl : c16 = '4' := lowerChar_fix (by decide) h16
  obtain rfl : c17 = '0' := lowerChar_fix (by decide) h17
  obtain rfl : c18 = '0' := lowerChar_fix (by decide) h18
  obtain rfl : c19 = '0' := lowerChar_fix (by decide) h19
  obtain rfl : c20 = ' ' := lowerChar_fix (by decide) h20
  obtain rfl : c27 = ':' := lowerChar_fix (by decide) h27
  obtain rfl : c28 = ' ' := lowerChar_fix (by decide) h28
  obtain rfl : c29 = '5' := lowerChar_fix (by decide) h29
  simp only [List.cons_append, List.nil_append]
  refine ⟨?_, ?_, ?_⟩
  · simp [search, matchPrimaryNumAt, matchCI, takeNumber,
      h0, h1, h2, h10, h11, h12, h13, h21, h22, h23, h24, h25, h26,
      lc_colon, lc_space, lc_d0, lc_d2, lc_d4, lc_d5,
      dig_0, dig_2, dig_4, dig_5, dig_sp, dig_colon,
      sp_sp, sp_2, sp_4, sp_5,
      List.takeWhile_cons, List.dropWhile_cons]
  · simp [search, matchPrimaryNumAt, matchCI, takeNumber,
      h0, h1, h2, h10, h11, h12, h13, h21, h22, h23, h24, h25, h26,
      lc_colon, lc_space, lc_d0, lc_d2, lc_d4, lc_d5,
      dig_0, dig_2, dig_4, dig_5, dig_sp, dig_colon,
      sp_sp, sp_2, sp_4, sp_5,
      List.takeWhile_cons, List.dropWhile_cons]
  · simp [search, matchPrimaryRatingAt, matchCI,
      h0, h1, h2, h10, h11, h12, h13, h21, h22, h23, h24, h25, h26,
      lc_colon, lc_space, lc_d0, lc_d2, lc_d4, lc_d5,
      sp_sp, sp_2, sp_4, sp_5, rat_5,
      List.dropWhile_cons]

/-- C1 counterexample: a text that contains the substring
`Low: 2000 High: 4000 Rating: 5` (shown by the explicit decomposition and
case-folding identity) but whose parsed low field is the earlier `1`, not
`2000` — surrounding text does change the extracted fields. -/
theorem parse_contains_counterexample :
    "Low: 1 Low: 2000 High: 4000 Rating: 5".data
        = "Low: 1 ".data ++ "Low: 2000 High: 4000 Rating: 5".data ++ []
    ∧ "Low: 2000 High: 4000 Rating: 5".data.map lowerChar = canonSub
    ∧ parseFields "Low: 1 Low: 2000 High: 4000 Rating: 5".data
        = some ⟨"1".data, "4000".data, '5'⟩
    ∧ "1".data ≠ "2000".data := by
  exact ⟨by decide, by decide, by decide, by decide⟩

/-- C1 (amended): for every text containing the substring
`Low: 2000 High: 4000 Rating: 5` in any letter case, `parse_response`
succeeds (returns a full record); the fields are those of the leftmost
match of each pattern in the whole text, hence exactly 2000, 4000 and 5
whenever the substring occurrence is leftmost — in particular whenever the
text starts with the substring — but an earlier labelled number in the
surrounding text takes precedence. -/
theorem parse_contains_amended :
    ∀ (pre post u : List Char), u.map lowerChar = canonSub →
      (parseFields (pre ++ u ++ post)).isSome = true
      ∧ parseFields (u ++ post)
          = some ⟨"2000".data, "4000".data, '5'⟩ := by
  intro pre post u hu
  obtain ⟨hl, hh, hr⟩ := parse_core_values post hu
  constructor
  · rw [List.append_assoc]
    have hl0 : (search (matchPrimaryNumAt "low:".data) (u ++ post)).isSome
        = true := by simp [hl]
    have hh0 : (search (matchPrimaryNumAt "high:".data) (u ++ post)).isSome
        = true := by simp [hh]
    have hr0 : (search matchPrimaryRatingAt (u ++ post)).isSome = true := by
      simp [hr]
    have hl' := search_isSome_append pre hl0
    have hh' := search_isSome_append pre hh0
    have hr' := search_isSome_append pre hr0
    obtain ⟨l, hls⟩ := Option.isSome_iff_exists.mp hl'
    obtain ⟨h, hhs⟩ := Option.isSome_iff_exists.mp hh'
    obtain ⟨r, hrs⟩ := Option.isSome_iff_exists.mp hr'
    simp [parseFields, hls, hhs, hrs]
  · simp [parseFields, hl, hh, hr]

/-- Witness for the amended C1 on a mixed-case occurrence with surrounding
text. -/
theorem parse_contains_amended_witness :
    (parseFields ("xx ".data ++ "LOW: 2000 high: 4000 Rating: 5".data
        ++ " yy".data)).isSome = true
    ∧ parseFields ("LOW: 2000 high: 4000 Rating: 5".data ++ " yy".data)
        = some ⟨"2000".data, "4000".data, '5'⟩ :=
  parse_contains_amended "xx ".data " yy".data
    "LOW: 2000 high: 4000 Rating: 5".data (by decide)

end FinAnalyzer
